import Mathlib

/-
Verification development for the epub2audiobook pipeline.

This file gives a shallow embedding of the core logic of the repository:

  * epub2audiobook/models.py          -> Chapter, BookMetadata, ChapterAudio
  * epub2audiobook/audio/m4b_builder.py -> _escape, _build_ffmetadata
  * epub2audiobook/epub_parser.py     -> _clean_for_tts, _extract_chapters
  * epub2audiobook/converter.py       -> Converter.convert (as an event trace),
                                         Converter._enrich_metadata
  * epub2audiobook/web/jobs.py        -> JobManager (store + heap of records)
  * epub2audiobook/web/app.py         -> the job status transition system

Python strings are modelled as Lean String / List Char; Python int sizes,
indices and millisecond durations as Nat (the probed duration is an
int(float * 1000) of a media duration, hence non-negative); Python bytes as
List UInt8.  re.sub applications are modelled as explicit left-to-right
scanners with the exact leftmost/greedy semantics of the patterns involved
(each pattern is simple enough that its backtracking behaviour is
deterministic; this is spelled out at each definition).
-/

namespace E2A

/-! ## Character classes and Python string helpers -/

/-- Whitespace as matched by the regex class backslash-s of Python and
stripped by str.strip, restricted to the ASCII range (space, tab, newline,
carriage return, vertical tab, form feed).  The texts handled below only
involve ASCII whitespace. -/
def isPySpace (c : Char) : Bool :=
  c == ' ' || c == '\t' || c == '\n' || c == '\r' || c == '\x0b' || c == '\x0c'

/-- Python str.strip on a character list: drop whitespace from the left, then
from the right. -/
def pyStripList (l : List Char) : List Char :=
  ((l.dropWhile isPySpace).reverse.dropWhile isPySpace).reverse

/-- Python str.strip. -/
def pyStrip (s : String) : String := String.mk (pyStripList s.data)

/-- Python str.replace with a single-character pattern: every occurrence of
the character a is replaced by repl, left to right; the replacement text is
not rescanned. -/
def replaceChar (a : Char) (repl : List Char) : List Char → List Char
  | [] => []
  | c :: rest => (if c = a then repl else [c]) ++ replaceChar a repl rest

/-! ## Data model (epub2audiobook/models.py) -/

/-- A single chapter extracted from an EPUB (models.Chapter). -/
structure Chapter where
  index : Nat
  title : String
  text : String
deriving DecidableEq, Repr

/-- Metadata extracted from the EPUB file (models.BookMetadata). -/
structure BookMetadata where
  title : String
  author : String
  language : String
  cover_image : Option (List UInt8) := none
deriving DecidableEq, Repr

/-- A synthesized chapter audio file with duration info (models.ChapterAudio).
The duration is the ffprobe result in whole milliseconds. -/
structure ChapterAudio where
  chapter : Chapter
  audio_path : String
  duration_ms : Nat
deriving DecidableEq, Repr

/-! ## m4b_builder._escape and the ffmetadata chapter lines -/

/-- The escape of m4b_builder._escape: backslash is escaped first, then each
of the characters equals-sign, semicolon, hash and newline is prefixed with a
single backslash.  (Char.ofNat 92 is the backslash character.) -/
def escapeList (l : List Char) : List Char :=
  replaceChar '\n' ['\\', '\n']
    (replaceChar '#' ['\\', '#']
      (replaceChar ';' ['\\', ';']
        (replaceChar '=' ['\\', '=']
          (replaceChar '\\' ['\\', '\\'] l))))

/-- m4b_builder._escape on strings. -/
def _escape (s : String) : String := String.mk (escapeList s.data)

/-- The inverse unescaping of the ffmetadata escape (modelled from the claim:
a backslash followed by any character stands for that character). -/
def unescapeList : List Char → List Char
  | [] => []
  | [c] => [c]
  | c :: d :: rest =>
    if c = '\\' then d :: unescapeList rest else c :: unescapeList (d :: rest)

/-- Unescaping on strings. -/
def unescape (s : String) : String := String.mk (unescapeList s.data)

/-- The per-chapter blocks of m4b_builder._build_ffmetadata: the loop keeps a
running time current_time_ms, emits START at the running time, adds the
chapter's duration, and emits END at the new running time. -/
def chapterLines : Nat → List ChapterAudio → List String
  | _, [] => []
  | t, ca :: rest =>
    "[CHAPTER]" :: "TIMEBASE=1/1000" ::
    ("START=" ++ toString t) ::
    ("END=" ++ toString (t + ca.duration_ms)) ::
    ("title=" ++ _escape ca.chapter.title) :: "" ::
    chapterLines (t + ca.duration_ms) rest

/-- The full list of lines built by m4b_builder._build_ffmetadata. -/
def ffmetadataLines (chapter_audios : List ChapterAudio) (metadata : BookMetadata) :
    List String :=
  ";FFMETADATA1" ::
  ("title=" ++ _escape metadata.title) ::
  ("artist=" ++ _escape metadata.author) :: "" ::
  chapterLines 0 chapter_audios

/-- m4b_builder._build_ffmetadata: the lines joined with newlines. -/
def _build_ffmetadata (chapter_audios : List ChapterAudio) (metadata : BookMetadata) :
    String :=
  String.intercalate "\n" (ffmetadataLines chapter_audios metadata)

/-- Test used to pick the chapter-marker lines out of the ffmetadata line list. -/
def linePrefixOf (p s : String) : Bool := p.data.isPrefixOf s.data

/-- Sum of the durations of the first i chapter audios: the START time of
marker i in the ffmetadata output. -/
def durTake (cas : List ChapterAudio) (i : Nat) : Nat :=
  ((cas.take i).map ChapterAudio.duration_ms).sum

/-! ## epub_parser._clean_for_tts

The cleanup is a fixed pipeline of str.replace calls and re.sub calls.  Each
re.sub is modelled as a left-to-right scanner with the pattern's exact
semantics: matches are found at the leftmost possible position, quantifiers
are greedy, a replacement is never rescanned, and scanning resumes right
after the replaced span.  For every pattern below the greedy match is
deterministic because the whitespace class and the other character classes
involved are disjoint, except for the trailing dollar of the punctuation-line
pattern, where the trailing whitespace run backtracks to the last position
that is the end of the text or is followed by a newline (findDollar). -/

/-- Length of the longest prefix whose characters all satisfy p. -/
def countLeading (p : Char → Bool) : List Char → Nat
  | [] => 0
  | c :: rest => if p c then countLeading p rest + 1 else 0

theorem countLeading_le (p : Char → Bool) (l : List Char) : countLeading p l ≤ l.length := by
  induction l with
  | nil => simp [countLeading]
  | cons c rest ih =>
    by_cases h : p c
    · simp [countLeading, h]; omega
    · simp [countLeading, h]

theorem length_dropWhile_le (p : Char → Bool) (l : List Char) :
    (l.dropWhile p).length ≤ l.length := by
  induction l with
  | nil => simp
  | cons c rest ih =>
    by_cases h : p c
    · simp [List.dropWhile, h]; omega
    · simp [List.dropWhile, h]

/-- The Unicode-punctuation normalisation table of _clean_for_tts, applied in
source (dict) order: curly quotes to straight quotes, en/em dashes to a
space, the ellipsis character to three dots, the non-breaking space to a
plain space. -/
def normalizeUnicode (l : List Char) : List Char :=
  replaceChar ' ' [' ']
    (replaceChar '…' ['.', '.', '.']
      (replaceChar '—' [' ']
        (replaceChar '–' [' ']
          (replaceChar '”' [Char.ofNat 34]
            (replaceChar '“' [Char.ofNat 34]
              (replaceChar '’' [Char.ofNat 39]
                (replaceChar '‘' [Char.ofNat 39] l)))))))

/-- text.replace of three dots with the placeholder \x00ELLIPSIS\x00
(left-to-right, non-overlapping). -/
def protectEllipsis : List Char → List Char
  | '.' :: '.' :: '.' :: rest =>
    '\x00' :: 'E' :: 'L' :: 'L' :: 'I' :: 'P' :: 'S' :: 'I' :: 'S' :: '\x00' ::
    protectEllipsis rest
  | c :: rest => c :: protectEllipsis rest
  | [] => []

/-- The placeholder \x00ELLIPSIS\x00 protecting ellipses during cleanup. -/
def ellipsisPlaceholder : List Char :=
  ['\x00', 'E', 'L', 'L', 'I', 'P', 'S', 'I', 'S', '\x00']

/-- text.replace of the placeholder \x00ELLIPSIS\x00 back to three dots
(left-to-right, non-overlapping; the placeholder has ten characters, so a
match consumes the head and nine further characters). -/
def restoreEllipsis (l : List Char) : List Char :=
  match l with
  | [] => []
  | c :: rest =>
    if ellipsisPlaceholder.isPrefixOf (c :: rest) then
      '.' :: '.' :: '.' :: restoreEllipsis (rest.drop 9)
    else c :: restoreEllipsis rest
termination_by l.length
decreasing_by
  · simp only [List.length_cons, List.length_drop]; omega
  · simp

/-- re.sub of a period at string start or preceded by whitespace, and
followed by whitespace or the string end, with the empty string.  The
lookarounds do not consume, so every period is tested against its original
neighbours; prevOk records whether the previous original character was
whitespace (true at the start of the string). -/
def removeIsolatedDots (prevOk : Bool) : List Char → List Char
  | [] => []
  | c :: rest =>
    if c == '.' && prevOk &&
        (match rest.head? with
         | none => true
         | some d => isPySpace d) then
      removeIsolatedDots false rest
    else
      c :: removeIsolatedDots (isPySpace c) rest

/-- The punctuation class of the punctuation-only-line pattern: period, the
three dashes, comma, semicolon, colon. -/
def isPunctChar (c : Char) : Bool :=
  c == '.' || c == '-' || c == '–' || c == '—' || c == ',' || c == ';' || c == ':'

/-- Whether position k of rest is a MULTILINE dollar position: the end of the
text, or a position whose character is a newline. -/
def dollarAt (rest : List Char) (k : Nat) : Bool :=
  match (rest.drop k).head? with
  | none => true
  | some c => c == '\n'

/-- Largest k at most the given bound that is a dollar position: the greedy
trailing whitespace run backtracks downwards from its maximal extent. -/
def findDollar (rest : List Char) : Nat → Option Nat
  | 0 => if dollarAt rest 0 then some 0 else none
  | k + 1 => if dollarAt rest (k + 1) then some (k + 1) else findDollar rest k

/-- Match of the MULTILINE punctuation-only-line pattern (whitespace*,
punctuation+, whitespace*, dollar) at the start of l, returning the number of
characters consumed.  The leading whitespace run and the punctuation run are
maximal (their classes are disjoint, so no backtracking can help); the
trailing whitespace run backtracks to the largest dollar position.  A
returned length is always at least 1 because the match contains at least one
punctuation character. -/
def tryPunctLine (l : List Char) : Option Nat :=
  let w1 := countLeading isPySpace l
  let p := countLeading isPunctChar (l.drop w1)
  if p = 0 then none
  else
    match findDollar (l.drop (w1 + p)) (countLeading isPySpace (l.drop (w1 + p))) with
    | some k => some (w1 + p + k)
    | none => none

/-- Whether the last character of a list is a newline: after a replacement,
the anchor for the next position holds exactly when the last consumed
character was a newline. -/
def nlLast (xs : List Char) : Bool := xs.getLast? == some '\n'

/-- re.sub with MULTILINE of lines made only of punctuation (the
whitespace*, punctuation+, whitespace*, dollar pattern anchored at a line
start) with the empty string.  atStart records whether the current position
is the start of the text or preceded by a newline. -/
def removePunctLines (atStart : Bool) (l : List Char) : List Char :=
  match l with
  | [] => []
  | c :: rest =>
    if atStart then
      match tryPunctLine (c :: rest) with
      | some e => removePunctLines (nlLast ((c :: rest).take e)) (rest.drop (e - 1))
      | none => c :: removePunctLines (c == '\n') rest
    else c :: removePunctLines (c == '\n') rest
termination_by l.length
decreasing_by
  · simp only [List.length_cons, List.length_drop]; omega
  · simp
  · simp

/-- Sentence-ending punctuation of the spacing pattern. -/
def isSentencePunct (c : Char) : Bool := c == '.' || c == '!' || c == '?'

/-- The letter class A-Z, À-Ú, a-z, à-ú of the spacing pattern. -/
def isLetterCls (c : Char) : Bool :=
  (0x41 ≤ c.toNat && c.toNat ≤ 0x5a) || (0x61 ≤ c.toNat && c.toNat ≤ 0x7a) ||
  (0xc0 ≤ c.toNat && c.toNat ≤ 0xda) || (0xe0 ≤ c.toNat && c.toNat ≤ 0xfa)

/-- re.sub inserting a space between sentence-ending punctuation and an
immediately following letter; a match consumes both characters. -/
def spaceAfterPunct : List Char → List Char
  | c1 :: c2 :: rest =>
    if isSentencePunct c1 && isLetterCls c2 then
      c1 :: ' ' :: c2 :: spaceAfterPunct rest
    else
      c1 :: spaceAfterPunct (c2 :: rest)
  | l => l

/-- The dash class: hyphen, en dash, em dash. -/
def isDash (c : Char) : Bool := c == '-' || c == '–' || c == '—'

/-- Match of whitespace*, period, whitespace* at the start of l (the tail of
the dash-period pattern after its dash), returning the number of characters
consumed.  Both whitespace runs are maximal. -/
def tryDashDot (l : List Char) : Option Nat :=
  let w1 := countLeading isPySpace l
  if (l.drop w1).head? = some '.' then
    some (w1 + 1 + countLeading isPySpace (l.drop (w1 + 1)))
  else none

/-- re.sub of dash, whitespace*, period, whitespace* with a period and a
space.  On a failed match at a dash only the dash is emitted: the skipped
whitespace cannot start a new match, so scanning from the next character is
the leftmost behaviour. -/
def collapseDashDot (l : List Char) : List Char :=
  match l with
  | [] => []
  | c :: rest =>
    if isDash c then
      match tryDashDot rest with
      | some n => '.' :: ' ' :: collapseDashDot (rest.drop n)
      | none => c :: collapseDashDot rest
    else c :: collapseDashDot rest
termination_by l.length
decreasing_by
  · simp only [List.length_cons, List.length_drop]; omega
  · simp
  · simp

/-- Match of whitespace*, comma, whitespace* at the start of l (the tail of
the dash-comma pattern after its dash). -/
def tryDashComma (l : List Char) : Option Nat :=
  let w1 := countLeading isPySpace l
  if (l.drop w1).head? = some ',' then
    some (w1 + 1 + countLeading isPySpace (l.drop (w1 + 1)))
  else none

/-- re.sub of dash, whitespace*, comma, whitespace* with a comma and a
space. -/
def collapseDashComma (l : List Char) : List Char :=
  match l with
  | [] => []
  | c :: rest =>
    if isDash c then
      match tryDashComma rest with
      | some n => ',' :: ' ' :: collapseDashComma (rest.drop n)
      | none => c :: collapseDashComma rest
    else c :: collapseDashComma rest
termination_by l.length
decreasing_by
  · simp only [List.length_cons, List.length_drop]; omega
  · simp
  · simp

/-- Match of whitespace*, period, whitespace*, dash, whitespace* at the start
of l, returning the number of characters consumed.  A returned length is
always at least 1 (the match contains the period and the dash). -/
def tryDotDash (l : List Char) : Option Nat :=
  let w1 := countLeading isPySpace l
  if (l.drop w1).head? = some '.' then
    let w2 := countLeading isPySpace (l.drop (w1 + 1))
    match (l.drop (w1 + 1 + w2)).head? with
    | some d =>
      if isDash d then
        some (w1 + 1 + w2 + 1 + countLeading isPySpace (l.drop (w1 + 1 + w2 + 1)))
      else none
    | none => none
  else none

/-- re.sub of whitespace*, period, whitespace*, dash, whitespace* with a
period and a space.  The pattern can begin at any position (its first
quantifier may match emptily), so a match is attempted at every position. -/
def collapseDotDash (l : List Char) : List Char :=
  match l with
  | [] => []
  | c :: rest =>
    match tryDotDash (c :: rest) with
    | some n => '.' :: ' ' :: collapseDotDash (rest.drop (n - 1))
    | none => c :: collapseDotDash rest
termination_by l.length
decreasing_by
  · simp only [List.length_cons, List.length_drop]; omega
  · simp

/-- Match of the MULTILINE line-start period-run pattern (whitespace*,
period+, whitespace*) at the start of l.  All three runs are maximal; a
returned length is at least 1 because of the period run. -/
def tryDotLine (l : List Char) : Option Nat :=
  let w1 := countLeading isPySpace l
  let p := countLeading (fun c => c == '.') (l.drop w1)
  if p = 0 then none
  else some (w1 + p + countLeading isPySpace (l.drop (w1 + p)))

/-- re.sub with MULTILINE of whitespace*, period+, whitespace* anchored at a
line start, with the empty string. -/
def removeDotLines (atStart : Bool) (l : List Char) : List Char :=
  match l with
  | [] => []
  | c :: rest =>
    if atStart then
      match tryDotLine (c :: rest) with
      | some e => removeDotLines (nlLast ((c :: rest).take e)) (rest.drop (e - 1))
      | none => c :: removeDotLines (c == '\n') rest
    else c :: removeDotLines (c == '\n') rest
termination_by l.length
decreasing_by
  · simp only [List.length_cons, List.length_drop]; omega
  · simp
  · simp

/-- re.sub of two or more literal spaces with one space: a maximal run of at
least two spaces collapses to a single space. -/
def collapseSpaces (l : List Char) : List Char :=
  match l with
  | ' ' :: ' ' :: rest => ' ' :: collapseSpaces (rest.dropWhile (fun c => c == ' '))
  | c :: rest => c :: collapseSpaces rest
  | [] => []
termination_by l.length
decreasing_by
  · simp only [List.length_cons]
    have := length_dropWhile_le (fun c => c == ' ') rest
    omega
  · simp

/-- re.sub of three or more newlines with exactly two. -/
def collapseNewlines (l : List Char) : List Char :=
  match l with
  | '\n' :: '\n' :: '\n' :: rest =>
    '\n' :: '\n' :: collapseNewlines (rest.dropWhile (fun c => c == '\n'))
  | c :: rest => c :: collapseNewlines rest
  | [] => []
termination_by l.length
decreasing_by
  · simp only [List.length_cons]
    have := length_dropWhile_le (fun c => c == '\n') rest
    omega
  · simp

/-- epub_parser._clean_for_tts on a character list: the full cleanup
pipeline, in source order. -/
def cleanForTtsList (l : List Char) : List Char :=
  collapseNewlines
    (collapseSpaces
      (restoreEllipsis
        (removeDotLines true
          (collapseDotDash
            (collapseDashComma
              (collapseDashDot
                (spaceAfterPunct
                  (removePunctLines true
                    (removeIsolatedDots true
                      (protectEllipsis
                        (normalizeUnicode l)))))))))))

/-- epub_parser._clean_for_tts. -/
def _clean_for_tts (text : String) : String := String.mk (cleanForTtsList text.data)

/-! ## epub_parser._extract_chapters

The spine loop looks each spine id up in the book, skips entries with no
item or no body content, converts the body to text, skips entries whose text
is blank after cleanup, and otherwise appends a Chapter carrying the running
index, which is incremented only on append.  The BeautifulSoup part of
_html_to_text is abstracted as the already-extracted string carried by a
content entry; the cleanup and final strip of _html_to_text are concrete. -/

/-- One spine entry as seen by the loop of _extract_chapters. -/
inductive SpineEntry where
  | missing
  | noBody
  | content (extracted : String) (title : Option String)
deriving DecidableEq

/-- The tail of _html_to_text: cleanup for TTS, then str.strip.  extracted is
the text assembled from the parsed HTML before cleanup. -/
def htmlToText (extracted : String) : String := pyStrip (_clean_for_tts extracted)

/-- The spine loop of _extract_chapters, starting at the given running
index.  The title default is the source's Capitolo index+1 fallback
(extract_title never returns an empty title, hence the Option model of the
Python or-default). -/
def processSpine (index : Nat) : List SpineEntry → List Chapter
  | [] => []
  | SpineEntry.missing :: rest => processSpine index rest
  | SpineEntry.noBody :: rest => processSpine index rest
  | SpineEntry.content extracted titleOpt :: rest =>
    let text := htmlToText extracted
    if pyStrip text = "" then processSpine index rest
    else
      { index := index,
        title := titleOpt.getD ("Capitolo " ++ toString (index + 1)),
        text := text } :: processSpine (index + 1) rest

/-- epub_parser._extract_chapters: run the spine loop from index 0 and fail
(ValueError in the source) when no chapter was produced. -/
def _extract_chapters (entries : List SpineEntry) : Except String (List Chapter) :=
  let chapters := processSpine 0 entries
  if chapters.isEmpty then Except.error "Nessun capitolo trovato"
  else Except.ok chapters

/-! ## Converter.convert: the synthesis loop as an event trace

The loop body of Converter.convert is modelled as the sequence of external
calls it performs per chapter: an engine.synthesize call unless the chapter's
audio file is cached, then a probe_duration_ms call on that file, the append
of the ChapterAudio record, and the progress callback.  The filesystem is a
map from path to file size (none for a missing file); it is read before any
write of the run affects a chapter's own file, and a synthesize call writes
only its own chapter's path, so for chapters with pairwise distinct indices
the static map is faithful to the per-iteration stat calls. -/

/-- Python format of an index with format spec 04d: decimal digits, zero
padded on the left to at least four characters. -/
def pad4 (n : Nat) : String :=
  String.mk (List.replicate (4 - (toString n).length) '0') ++ toString n

/-- The deterministic chapter audio filename chapter_{index:04d}.{ext}. -/
def audioFileName (index : Nat) (ext : String) : String :=
  "chapter_" ++ pad4 index ++ "." ++ ext

/-- The working directory contents: file size by path, none when missing. -/
def FileSys := String → Option Nat

/-- The resume check of Converter.convert: the path exists and has size
greater than zero. -/
def isCached (fs : FileSys) (path : String) : Bool :=
  match fs path with
  | some size => decide (0 < size)
  | none => false

/-- One external call of the conversion loop. -/
inductive ConvEvent where
  | synth (index : Nat)
  | probe (index : Nat)
  | append (index : Nat)
  | progress (current total : Nat)
deriving DecidableEq, Repr

/-- The calls performed for one chapter: synthesize unless cached, then
probe, append, progress callback. -/
def chapterEvents (fs : FileSys) (ext : String) (total : Nat) (ch : Chapter) :
    List ConvEvent :=
  (if isCached fs (audioFileName ch.index ext) then []
   else [ConvEvent.synth ch.index]) ++
  [ConvEvent.probe ch.index, ConvEvent.append ch.index,
   ConvEvent.progress (ch.index + 1) total]

/-- The full call trace of the loop of Converter.convert over the parsed
chapter list. -/
def convertTrace (fs : FileSys) (ext : String) (total : Nat) : List Chapter → List ConvEvent
  | [] => []
  | ch :: rest => chapterEvents fs ext total ch ++ convertTrace fs ext total rest

/-! ## Converter.convert: working-directory lifecycle -/

/-- A directory-level filesystem effect of Converter.convert. -/
inductive DirEffect where
  | createTempDir
  | mkdirWork
  | removeWorkTree
deriving DecidableEq, Repr

/-- The directory effects of one Converter.convert run.  Parsing and
metadata enrichment happen before any directory handling, so a parse failure
produces no effect.  Otherwise cleanup_work_dir is set to whether work_dir is
None, a temp dir is created when it is, mkdir runs, the body (synthesis loop
and assembly) runs inside a try with outcome bodyOutcome, and the finally
block removes the tree exactly when cleanup_work_dir was set, on success and
on failure alike. -/
def convertDirEffects (work_dir : Option String) (parseOk : Bool)
    (bodyOutcome : Except String Unit) : List DirEffect :=
  if parseOk then
    (if work_dir.isNone then [DirEffect.createTempDir] else []) ++
    [DirEffect.mkdirWork] ++
    (match bodyOutcome with
     | Except.ok _ => []
     | Except.error _ => []) ++
    (if work_dir.isNone then [DirEffect.removeWorkTree] else [])
  else []

/-! ## Converter._enrich_metadata -/

/-- Python truthiness of an optional bytes value: present and non-empty. -/
def truthyBytes : Option (List UInt8) → Bool
  | some b => !b.isEmpty
  | none => false

/-- Converter._enrich_metadata.  The two network collaborators are inputs:
enrichResult is the outcome of enrich_metadata(title, author), with error for
a raised exception and otherwise the cover_image field of the returned dict;
fetchResult is the outcome of the fallback fetch_cover_image call.  The
function itself is total: every collaborator failure is caught and the
original metadata returned. -/
def _enrich_metadata (metadata : BookMetadata)
    (enrichResult : Except String (Option (List UInt8)))
    (fetchResult : Except String (Option (List UInt8))) : BookMetadata :=
  if truthyBytes metadata.cover_image then metadata
  else
    match enrichResult with
    | Except.error _ => metadata
    | Except.ok cover =>
      if truthyBytes cover then
        { title := metadata.title, author := metadata.author,
          language := metadata.language, cover_image := cover }
      else
        match fetchResult with
        | Except.error _ => metadata
        | Except.ok fcover =>
          if truthyBytes fcover then
            { title := metadata.title, author := metadata.author,
              language := metadata.language, cover_image := fcover }
          else metadata

/-! ## The web job layer (web/jobs.py and web/app.py)

The status lifecycle is modelled as a transition system over the status of
one job together with a flag for whether its background conversion thread is
running.  The transitions are the ones the web layer performs: the convert
endpoint checks the status is uploaded (responding 409 otherwise, leaving the
job unchanged) and sets it to converting before spawning run_conversion; the
endpoint handlers run on a single event loop with no await between the check
and the update, so the guarded section is atomic; run_conversion runs once
per spawn and ends by setting done (after set_output) or error (after
set_error); every other operation of the layer leaves the status field
unchanged. -/

/-- The job status values of the state machine uploaded, converting,
done, error. -/
inductive JobStatus where
  | uploaded
  | converting
  | done
  | error
deriving DecidableEq, Repr

/-- Position of a status along the forward direction of the lifecycle. -/
def statusRank : JobStatus → Nat
  | JobStatus.uploaded => 0
  | JobStatus.converting => 1
  | JobStatus.done => 2
  | JobStatus.error => 2

/-- Whether a status is terminal. -/
def isTerminalStatus (s : JobStatus) : Bool :=
  s == JobStatus.done || s == JobStatus.error

/-- Status of one job plus whether its conversion thread is running. -/
structure JobState where
  status : JobStatus
  running : Bool
deriving DecidableEq, Repr

/-- The state right after create: status uploaded, no thread. -/
def jobInit : JobState := { status := JobStatus.uploaded, running := false }

/-- One operation of the web layer touching the job, as observed on its
status.  startOk and startRejected are the convert endpoint with its
status-equals-uploaded guard; finishOk and finishErr are the two exits of
run_conversion, possible only while the spawned thread is running; other
covers every remaining operation (get, update_progress, set_output,
set_error, the upload and download endpoints), none of which writes the
status field. -/
inductive JobStep : JobState → JobState → Prop where
  | startOk (s : JobState) :
      s.status = JobStatus.uploaded →
      JobStep s { status := JobStatus.converting, running := true }
  | startRejected (s : JobState) :
      s.status ≠ JobStatus.uploaded → JobStep s s
  | finishOk (s : JobState) :
      s.running = true →
      JobStep s { status := JobStatus.done, running := false }
  | finishErr (s : JobState) :
      s.running = true →
      JobStep s { status := JobStatus.error, running := false }
  | other (s : JobState) : JobStep s s

/-- Job states reachable from the post-create state. -/
def JobReachable (s : JobState) : Prop := Relation.ReflTransGen JobStep jobInit s

/-! ## JobManager as a store of mutable records

Python job dicts are mutable objects, so the store is modelled with an
explicit heap: a list of records addressed by index, and the id map of
self._jobs pointing into it.  get returns dict(job), a fresh copy, modelled
as the allocation of a new record at the end of the heap; mutating the copy
therefore cannot change the stored record. -/

/-- One job record, with the fields initialised by JobManager.create. -/
structure Job where
  job_id : String
  status : String
  epub_path : String
  output_path : Option String
  title : String
  author : String
  language : String
  total_chapters : Nat
  current_chapter : Nat
  chapter_title : String
  error : Option String
  cover_image : Option (List UInt8)
deriving DecidableEq, Repr

/-- The in-memory store: the id map of self._jobs and the heap of live
records. -/
structure JobManager where
  jobs : String → Option Nat
  heap : List Job

/-- Every id the map knows points into the heap. -/
def WFJobManager (m : JobManager) : Prop :=
  ∀ id r, m.jobs id = some r → r < m.heap.length

/-- Read the record a reference points at. -/
def JobManager.readJob (m : JobManager) (r : Nat) : Option Job := m.heap[r]?

/-- Overwrite the record a reference points at (mutation of a job dict). -/
def JobManager.writeJob (m : JobManager) (r : Nat) (j : Job) : JobManager :=
  { m with heap := m.heap.set r j }

/-- JobManager.get: none for an unknown id; otherwise a reference to a fresh
copy of the stored record (Python's dict(job)), allocated at the end of the
heap.  The inner none case is unreachable for well-formed managers. -/
def JobManager.get (m : JobManager) (job_id : String) : Option Nat × JobManager :=
  match m.jobs job_id with
  | none => (none, m)
  | some r =>
    match m.heap[r]? with
    | none => (none, m)
    | some j => (some m.heap.length, { m with heap := m.heap ++ [j] })

/-- JobManager.update_status: write the status field of the stored record if
the id is known, otherwise do nothing. -/
def JobManager.update_status (m : JobManager) (job_id status : String) : JobManager :=
  match m.jobs job_id with
  | none => m
  | some r =>
    match m.heap[r]? with
    | none => m
    | some j => { m with heap := m.heap.set r { j with status := status } }

/-- JobManager.update_progress: write the three progress fields if the id is
known, otherwise do nothing. -/
def JobManager.update_progress (m : JobManager) (job_id : String)
    (current total : Nat) (title : String) : JobManager :=
  match m.jobs job_id with
  | none => m
  | some r =>
    match m.heap[r]? with
    | none => m
    | some j =>
      { m with
        heap := m.heap.set r
          { j with current_chapter := current, total_chapters := total,
                   chapter_title := title } }

/-- JobManager.set_output: write the output path if the id is known,
otherwise do nothing. -/
def JobManager.set_output (m : JobManager) (job_id path : String) : JobManager :=
  match m.jobs job_id with
  | none => m
  | some r =>
    match m.heap[r]? with
    | none => m
    | some j => { m with heap := m.heap.set r { j with output_path := some path } }

/-- JobManager.set_error: write the error text if the id is known, otherwise
do nothing. -/
def JobManager.set_error (m : JobManager) (job_id err : String) : JobManager :=
  match m.jobs job_id with
  | none => m
  | some r =>
    match m.heap[r]? with
    | none => m
    | some j => { m with heap := m.heap.set r { j with error := some err } }

/-! ## Theorems -/

theorem string_mk_data (s : String) : String.mk s.data = s := by
  cases s
  rfl

/-! ### C5: the ffmetadata escape and its inverse -/

theorem replaceChar_append (a : Char) (repl l₁ l₂ : List Char) :
    replaceChar a repl (l₁ ++ l₂) = replaceChar a repl l₁ ++ replaceChar a repl l₂ := by
  induction l₁ with
  | nil => rfl
  | cons c rest ih => simp [replaceChar, ih]

/-- The per-character effect of the composed escape: the five special
characters get a backslash in front, everything else is unchanged. -/
def escChar (c : Char) : List Char :=
  if c = '\\' ∨ c = '=' ∨ c = ';' ∨ c = '#' ∨ c = '\n' then ['\\', c] else [c]

theorem escapeList_nil : escapeList [] = [] := rfl

theorem escapeList_cons (c : Char) (l : List Char) :
    escapeList (c :: l) = escChar c ++ escapeList l := by
  unfold escapeList
  rw [show replaceChar '\\' ['\\', '\\'] (c :: l)
        = (if c = '\\' then ['\\', '\\'] else [c]) ++ replaceChar '\\' ['\\', '\\'] l
      from rfl]
  rw [replaceChar_append, replaceChar_append, replaceChar_append, replaceChar_append]
  by_cases h1 : c = '\\'
  · subst h1; simp [escChar, replaceChar]
  · by_cases h2 : c = '='
    · subst h2; simp [escChar, replaceChar]
    · by_cases h3 : c = ';'
      · subst h3; simp [escChar, replaceChar]
      · by_cases h4 : c = '#'
        · subst h4; simp [escChar, replaceChar]
        · by_cases h5 : c = '\n'
          · subst h5; simp [escChar, replaceChar]
          · simp [escChar, replaceChar, h1, h2, h3, h4, h5]

theorem unescapeList_escapeList (l : List Char) : unescapeList (escapeList l) = l := by
  induction l with
  | nil => rfl
  | cons c rest ih =>
    rw [escapeList_cons]
    by_cases h : c = '\\' ∨ c = '=' ∨ c = ';' ∨ c = '#' ∨ c = '\n'
    · rw [show escChar c = ['\\', c] from by simp [escChar, h]]
      show unescapeList ('\\' :: c :: escapeList rest) = c :: rest
      rw [show unescapeList ('\\' :: c :: escapeList rest)
            = c :: unescapeList (escapeList rest) from by simp [unescapeList]]
      rw [ih]
    · rw [show escChar c = [c] from by simp [escChar, h]]
      push_neg at h
      cases hE : escapeList rest with
      | nil =>
        rw [hE] at ih
        show unescapeList [c] = c :: rest
        rw [show unescapeList [c] = [c] from rfl]
        simp [← ih, unescapeList]
      | cons d t =>
        rw [hE] at ih
        show unescapeList (c :: d :: t) = c :: rest
        rw [show unescapeList (c :: d :: t)
              = if c = '\\' then d :: unescapeList t else c :: unescapeList (d :: t)
            from rfl]
        rw [if_neg h.1, ih]

/-- C5: the ffmetadata escape prefixes backslash (handled first) and each of
equals, semicolon, hash and newline with a single backslash; unescaping the
escaped string recovers the original exactly, and escaping a=b yields
a backslash-equals b. -/
theorem escape_roundtrip :
    (∀ s : String, unescape ( _escape s) = s) ∧ _escape "a=b" = "a\\=b" := by
  constructor
  · intro s
    show String.mk (unescapeList (escapeList s.data)) = s
    rw [unescapeList_escapeList, string_mk_data]
  · rfl

/-! ### C7: working-directory lifecycle of Converter.convert -/

/-- C7: a run with no caller-supplied work_dir creates a temp directory and
removes it in the finally block on every body outcome; a run with a
caller-supplied work_dir never creates a temp directory and never removes
the working tree, on every body outcome.  Parse failures happen before any
directory handling. -/
theorem convert_workdir_lifecycle :
    ∀ (work_dir : Option String) (parseOk : Bool) (body : Except String Unit),
      (DirEffect.removeWorkTree ∈ convertDirEffects work_dir parseOk body ↔
        work_dir = none ∧ parseOk = true) ∧
      (DirEffect.createTempDir ∈ convertDirEffects work_dir parseOk body ↔
        work_dir = none ∧ parseOk = true) := by
  intro wd p body
  cases wd <;> cases p <;> cases body <;> simp [convertDirEffects]

/-! ### C8: metadata enrichment is a best-effort cover fill -/

/-- C8: _enrich_metadata never raises (it is a total function of the two
collaborator outcomes), returns metadata that agrees with the input on
title, author and language, returns the input unchanged when the input
already has a (non-empty) cover or when enrich_metadata raised, and
otherwise changes at most the cover_image field, to some non-empty cover. -/
theorem enrich_metadata_frame :
    ∀ (md : BookMetadata) (e f : Except String (Option (List UInt8))),
      ((_enrich_metadata md e f).title = md.title ∧
       (_enrich_metadata md e f).author = md.author ∧
       (_enrich_metadata md e f).language = md.language) ∧
      (truthyBytes md.cover_image = true → _enrich_metadata md e f = md) ∧
      (∀ msg, e = Except.error msg → _enrich_metadata md e f = md) ∧
      ((_enrich_metadata md e f).cover_image = md.cover_image ∨
       (truthyBytes md.cover_image = false ∧
        ∃ b, b ≠ [] ∧ (_enrich_metadata md e f).cover_image = some b)) := by
  intro md e f
  by_cases h : truthyBytes md.cover_image
  · simp [_enrich_metadata, h]
  · rw [Bool.not_eq_true] at h
    rcases e with msg | cover
    · simp [_enrich_metadata, h]
    · by_cases hc : truthyBytes cover = true
      · rcases cover with _ | b
        · simp [truthyBytes] at hc
        · have hb : b.isEmpty = false := by simpa [truthyBytes] using hc
          have hr : _enrich_metadata md (Except.ok (some b)) f
              = { title := md.title, author := md.author,
                  language := md.language, cover_image := some b } := by
            simp only [_enrich_metadata, h]
            simp [truthyBytes, hb]
          constructor
          · rw [hr]
            exact ⟨rfl, rfl, rfl⟩
          constructor
          · intro ht
            rw [ht] at h
            exact Bool.noConfusion h
          constructor
          · intro msg hmsg
            exact Except.noConfusion hmsg
          · refine Or.inr ⟨h, b, ?_, ?_⟩
            · intro hbnil
              rw [hbnil] at hb
              simp at hb
            · rw [hr]
      · rw [Bool.not_eq_true] at hc
        rcases f with msg | fcover
        · simp [_enrich_metadata, h, hc]
        · by_cases hf : truthyBytes fcover = true
          · rcases fcover with _ | b
            · simp [truthyBytes] at hf
            · have hb : b.isEmpty = false := by simpa [truthyBytes] using hf
              have hr : _enrich_metadata md (Except.ok cover) (Except.ok (some b))
                  = { title := md.title, author := md.author,
                      language := md.language, cover_image := some b } := by
                simp only [_enrich_metadata, h, hc]
                simp [truthyBytes, hb]
              constructor
              · rw [hr]
                exact ⟨rfl, rfl, rfl⟩
              constructor
              · intro ht
                rw [ht] at h
                exact Bool.noConfusion h
              constructor
              · intro msg hmsg
                exact Except.noConfusion hmsg
              · refine Or.inr ⟨h, b, ?_, ?_⟩
                · intro hbnil
                  rw [hbnil] at hb
                  simp at hb
                · rw [hr]
          · rw [Bool.not_eq_true] at hf
            simp [_enrich_metadata, h, hc, hf]

/-- Witness for C8: metadata that already carries a cover is returned
unchanged. -/
theorem enrich_metadata_frame_witness :
    _enrich_metadata
        { title := "t", author := "a", language := "it", cover_image := some [1] }
        (Except.ok none) (Except.ok none)
      = { title := "t", author := "a", language := "it", cover_image := some [1] } :=
  (enrich_metadata_frame
      { title := "t", author := "a", language := "it", cover_image := some [1] }
      (Except.ok none) (Except.ok none)).2.1 (by decide)

/-! ### C2: chapter markers of _build_ffmetadata -/

theorem isPrefixOf_append_self (p r : List Char) : p.isPrefixOf (p ++ r) = true := by
  induction p with
  | nil => simp
  | cons c rest ih =>
    rw [List.cons_append, List.isPrefixOf_cons₂]
    simp [ih]

theorem isPrefixOf_cons_ne (a b : Char) (l₁ l₂ : List Char) (h : (a == b) = false) :
    (a :: l₁).isPrefixOf (b :: l₂) = false := by
  rw [List.isPrefixOf_cons₂, h, Bool.false_and]

theorem linePre_self (p r : String) : linePrefixOf p (p ++ r) = true := by
  simp only [linePrefixOf, String.data_append]
  exact isPrefixOf_append_self p.data r.data

theorem start_not_pre_end (r : String) :
    linePrefixOf "START=" ("END=" ++ r) = false := by
  simp only [linePrefixOf, String.data_append]
  rw [List.cons_append]
  exact isPrefixOf_cons_ne _ _ _ _ (by decide)

theorem start_not_pre_title (r : String) :
    linePrefixOf "START=" ("title=" ++ r) = false := by
  simp only [linePrefixOf, String.data_append]
  rw [List.cons_append]
  exact isPrefixOf_cons_ne _ _ _ _ (by decide)

theorem start_not_pre_artist (r : String) :
    linePrefixOf "START=" ("artist=" ++ r) = false := by
  simp only [linePrefixOf, String.data_append]
  rw [List.cons_append]
  exact isPrefixOf_cons_ne _ _ _ _ (by decide)

theorem end_not_pre_start (r : String) :
    linePrefixOf "END=" ("START=" ++ r) = false := by
  simp only [linePrefixOf, String.data_append]
  rw [List.cons_append]
  exact isPrefixOf_cons_ne _ _ _ _ (by decide)

theorem end_not_pre_title (r : String) :
    linePrefixOf "END=" ("title=" ++ r) = false := by
  simp only [linePrefixOf, String.data_append]
  rw [List.cons_append]
  exact isPrefixOf_cons_ne _ _ _ _ (by decide)

theorem end_not_pre_artist (r : String) :
    linePrefixOf "END=" ("artist=" ++ r) = false := by
  simp only [linePrefixOf, String.data_append]
  rw [List.cons_append]
  exact isPrefixOf_cons_ne _ _ _ _ (by decide)

theorem durTake_zero (cas : List ChapterAudio) : durTake cas 0 = 0 := by
  simp [durTake]

theorem durTake_cons_succ (ca : ChapterAudio) (rest : List ChapterAudio) (i : Nat) :
    durTake (ca :: rest) (i + 1) = ca.duration_ms + durTake rest i := by
  simp [durTake]

theorem chapterLines_filter_start (cas : List ChapterAudio) (t : Nat) :
    (chapterLines t cas).filter (fun l => linePrefixOf "START=" l)
      = (List.range cas.length).map
          (fun i => "START=" ++ toString (t + durTake cas i)) := by
  induction cas generalizing t with
  | nil => simp [chapterLines]
  | cons ca rest ih =>
    have hstep :
        (chapterLines t (ca :: rest)).filter (fun l => linePrefixOf "START=" l)
          = ("START=" ++ toString t) ::
            (chapterLines (t + ca.duration_ms) rest).filter
              (fun l => linePrefixOf "START=" l) := by
      rw [show chapterLines t (ca :: rest)
            = "[CHAPTER]" :: "TIMEBASE=1/1000" ::
              ("START=" ++ toString t) ::
              ("END=" ++ toString (t + ca.duration_ms)) ::
              ("title=" ++ _escape ca.chapter.title) :: "" ::
              chapterLines (t + ca.duration_ms) rest from rfl]
      simp [List.filter_cons, linePre_self, start_not_pre_end, start_not_pre_title,
        show linePrefixOf "START=" "[CHAPTER]" = false from by decide,
        show linePrefixOf "START=" "TIMEBASE=1/1000" = false from by decide,
        show linePrefixOf "START=" "" = false from by decide]
    rw [hstep, ih (t + ca.duration_ms)]
    rw [show (ca :: rest).length = rest.length + 1 from rfl, List.range_succ_eq_map,
        List.map_cons, List.map_map]
    congr 1
    apply List.map_congr_left
    intro i _
    show ("START=" ++ toString (t + ca.duration_ms + durTake rest i))
          = "START=" ++ toString (t + durTake (ca :: rest) (i + 1))
    rw [durTake_cons_succ, ← Nat.add_assoc]

theorem chapterLines_filter_end (cas : List ChapterAudio) (t : Nat) :
    (chapterLines t cas).filter (fun l => linePrefixOf "END=" l)
      = (List.range cas.length).map
          (fun i => "END=" ++ toString (t + durTake cas (i + 1))) := by
  induction cas generalizing t with
  | nil => simp [chapterLines]
  | cons ca rest ih =>
    have hstep :
        (chapterLines t (ca :: rest)).filter (fun l => linePrefixOf "END=" l)
          = ("END=" ++ toString (t + ca.duration_ms)) ::
            (chapterLines (t + ca.duration_ms) rest).filter
              (fun l => linePrefixOf "END=" l) := by
      rw [show chapterLines t (ca :: rest)
            = "[CHAPTER]" :: "TIMEBASE=1/1000" ::
              ("START=" ++ toString t) ::
              ("END=" ++ toString (t + ca.duration_ms)) ::
              ("title=" ++ _escape ca.chapter.title) :: "" ::
              chapterLines (t + ca.duration_ms) rest from rfl]
      simp [List.filter_cons, linePre_self, end_not_pre_start, end_not_pre_title,
        show linePrefixOf "END=" "[CHAPTER]" = false from by decide,
        show linePrefixOf "END=" "TIMEBASE=1/1000" = false from by decide,
        show linePrefixOf "END=" "" = false from by decide]
    rw [hstep, ih (t + ca.duration_ms)]
    rw [show (ca :: rest).length = rest.length + 1 from rfl, List.range_succ_eq_map,
        List.map_cons, List.map_map]
    congr 1
    apply List.map_congr_left
    intro i _
    show ("END=" ++ toString (t + ca.duration_ms + durTake rest (i + 1)))
          = "END=" ++ toString (t + durTake (ca :: rest) (i + 1 + 1))
    rw [durTake_cons_succ, ← Nat.add_assoc]

theorem durTake_succ_getD (cas : List ChapterAudio) (i : Nat) :
    durTake cas (i + 1)
      = durTake cas i + (cas.map ChapterAudio.duration_ms).getD i 0 := by
  induction cas generalizing i with
  | nil => simp [durTake]
  | cons ca rest ih =>
    cases i with
    | zero => simp [durTake]
    | succ j =>
      rw [durTake_cons_succ, durTake_cons_succ, ih j]
      simp [Nat.add_assoc]

/-- C2: the ffmetadata text is the newline join of the built lines; those
lines carry exactly one START and one END line per chapter audio, in list
order, with START of marker i the sum of the first i durations and END of
marker i the sum of the first i+1 durations; hence each END exceeds its
START by that chapter's duration, consecutive markers share boundaries with
no gaps or overlaps, and the last END is the total duration. -/
theorem build_ffmetadata_markers :
    ∀ (cas : List ChapterAudio) (md : BookMetadata),
      _build_ffmetadata cas md = String.intercalate "\n" (ffmetadataLines cas md) ∧
      (ffmetadataLines cas md).filter (fun l => linePrefixOf "START=" l)
        = (List.range cas.length).map
            (fun i => "START=" ++ toString (durTake cas i)) ∧
      (ffmetadataLines cas md).filter (fun l => linePrefixOf "END=" l)
        = (List.range cas.length).map
            (fun i => "END=" ++ toString (durTake cas (i + 1))) ∧
      (∀ i, durTake cas (i + 1)
              = durTake cas i + (cas.map ChapterAudio.duration_ms).getD i 0) ∧
      durTake cas cas.length = (cas.map ChapterAudio.duration_ms).sum := by
  intro cas md
  refine ⟨rfl, ?_, ?_, durTake_succ_getD cas, ?_⟩
  · have hhead :
        (ffmetadataLines cas md).filter (fun l => linePrefixOf "START=" l)
          = (chapterLines 0 cas).filter (fun l => linePrefixOf "START=" l) := by
      rw [show ffmetadataLines cas md
            = ";FFMETADATA1" :: ("title=" ++ _escape md.title) ::
              ("artist=" ++ _escape md.author) :: "" :: chapterLines 0 cas from rfl]
      simp [List.filter_cons, start_not_pre_title, start_not_pre_artist,
        show linePrefixOf "START=" ";FFMETADATA1" = false from by decide,
        show linePrefixOf "START=" "" = false from by decide]
    rw [hhead, chapterLines_filter_start cas 0]
    apply List.map_congr_left
    intro i _
    rw [Nat.zero_add]
  · have hhead :
        (ffmetadataLines cas md).filter (fun l => linePrefixOf "END=" l)
          = (chapterLines 0 cas).filter (fun l => linePrefixOf "END=" l) := by
      rw [show ffmetadataLines cas md
            = ";FFMETADATA1" :: ("title=" ++ _escape md.title) ::
              ("artist=" ++ _escape md.author) :: "" :: chapterLines 0 cas from rfl]
      simp [List.filter_cons, end_not_pre_title, end_not_pre_artist,
        show linePrefixOf "END=" ";FFMETADATA1" = false from by decide,
        show linePrefixOf "END=" "" = false from by decide]
    rw [hhead, chapterLines_filter_end cas 0]
    apply List.map_congr_left
    intro i _
    rw [Nat.zero_add]
  · rw [durTake, List.take_length]

/-! ### C6: the TTS cleanup is not idempotent

The dash-collapsing substitutions run after the standalone-period removal
and can themselves produce standalone periods, which a second run of the
cleanup then removes: cleaning a dash-dot-dash-dot group between words once
yields "a . . b", cleaning it again yields "a b". -/

theorem clean_eval_once : _clean_for_tts "a -.-. b" = "a . . b" := by
  have s1 : normalizeUnicode "a -.-. b".data = "a -.-. b".data := by
    simp [normalizeUnicode, replaceChar]
  have s2 : protectEllipsis "a -.-. b".data = "a -.-. b".data := by
    simp [protectEllipsis]
  have s3 : removeIsolatedDots true "a -.-. b".data = "a -.-. b".data := by
    simp [removeIsolatedDots, isPySpace]
  have s4 : removePunctLines true "a -.-. b".data = "a -.-. b".data := by
    simp [removePunctLines, tryPunctLine, countLeading, isPySpace, isPunctChar,
      findDollar, dollarAt, nlLast]
  have s5 : spaceAfterPunct "a -.-. b".data = "a -.-. b".data := by
    simp [spaceAfterPunct, isSentencePunct, isLetterCls]
  have s6 : collapseDashDot "a -.-. b".data = "a . . b".data := by
    simp [collapseDashDot, tryDashDot, countLeading, isPySpace, isDash]
  have s7 : collapseDashComma "a . . b".data = "a . . b".data := by
    simp [collapseDashComma, tryDashComma, countLeading, isPySpace, isDash]
  have s8 : collapseDotDash "a . . b".data = "a . . b".data := by
    simp [collapseDotDash, tryDotDash, countLeading, isPySpace, isDash]
  have s9 : removeDotLines true "a . . b".data = "a . . b".data := by
    simp [removeDotLines, tryDotLine, countLeading, isPySpace, nlLast]
  have s10 : restoreEllipsis "a . . b".data = "a . . b".data := by
    simp [restoreEllipsis, ellipsisPlaceholder, List.isPrefixOf]
  have s11 : collapseSpaces "a . . b".data = "a . . b".data := by
    simp [collapseSpaces]
  have s12 : collapseNewlines "a . . b".data = "a . . b".data := by
    simp [collapseNewlines]
  show String.mk (cleanForTtsList "a -.-. b".data) = "a . . b"
  rw [cleanForTtsList, s1, s2, s3, s4, s5, s6, s7, s8, s9, s10, s11, s12,
    string_mk_data]

theorem clean_eval_twice : _clean_for_tts "a . . b" = "a b" := by
  have s1 : normalizeUnicode "a . . b".data = "a . . b".data := by
    simp [normalizeUnicode, replaceChar]
  have s2 : protectEllipsis "a . . b".data = "a . . b".data := by
    simp [protectEllipsis]
  have s3 : removeIsolatedDots true "a . . b".data = "a   b".data := by
    simp [removeIsolatedDots, isPySpace]
  have s4 : removePunctLines true "a   b".data = "a   b".data := by
    simp [removePunctLines, tryPunctLine, countLeading, isPySpace, isPunctChar,
      findDollar, dollarAt, nlLast]
  have s5 : spaceAfterPunct "a   b".data = "a   b".data := by
    simp [spaceAfterPunct, isSentencePunct, isLetterCls]
  have s6 : collapseDashDot "a   b".data = "a   b".data := by
    simp [collapseDashDot, tryDashDot, countLeading, isPySpace, isDash]
  have s7 : collapseDashComma "a   b".data = "a   b".data := by
    simp [collapseDashComma, tryDashComma, countLeading, isPySpace, isDash]
  have s8 : collapseDotDash "a   b".data = "a   b".data := by
    simp [collapseDotDash, tryDotDash, countLeading, isPySpace, isDash]
  have s9 : removeDotLines true "a   b".data = "a   b".data := by
    simp [removeDotLines, tryDotLine, countLeading, isPySpace, nlLast]
  have s10 : restoreEllipsis "a   b".data = "a   b".data := by
    simp [restoreEllipsis, ellipsisPlaceholder, List.isPrefixOf]
  have s11 : collapseSpaces "a   b".data = "a b".data := by
    simp [collapseSpaces]
  have s12 : collapseNewlines "a b".data = "a b".data := by
    simp [collapseNewlines]
  show String.mk (cleanForTtsList "a . . b".data) = "a b"
  rw [cleanForTtsList, s1, s2, s3, s4, s5, s6, s7, s8, s9, s10, s11, s12,
    string_mk_data]

/-- C6: _clean_for_tts is not idempotent.  On the input "a -.-. b" one
application yields "a . . b" while a second application yields "a b": the
dash-period collapsing (which runs after the standalone-period removal)
introduces standalone periods that only a second run removes. -/
theorem clean_for_tts_not_idempotent :
    _clean_for_tts ( _clean_for_tts "a -.-. b") ≠ _clean_for_tts "a -.-. b" := by
  rw [clean_eval_once, clean_eval_twice]
  decide

/-! ### C3 and C4: chapter indices and chapter text of _extract_chapters -/

theorem dropWhile_head_false (p : Char → Bool) (l : List Char) :
    ∀ c, (l.dropWhile p).head? = some c → p c = false := by
  induction l with
  | nil => intro c h; simp at h
  | cons a rest ih =>
    intro c h
    by_cases hp : p a
    · simp only [List.dropWhile, hp] at h
      exact ih c h
    · simp only [List.dropWhile, hp, Bool.false_eq_true, if_false, ite_false,
        List.head?_cons, Option.some.injEq] at h
      rw [← h]
      rw [Bool.not_eq_true] at hp
      exact hp

theorem dropWhile_eq_self_of_head (p : Char → Bool) (l : List Char)
    (h : ∀ c, l.head? = some c → p c = false) : l.dropWhile p = l := by
  cases l with
  | nil => rfl
  | cons a rest =>
    have ha := h a rfl
    simp [List.dropWhile, ha]

theorem dropWhile_idem (p : Char → Bool) (l : List Char) :
    (l.dropWhile p).dropWhile p = l.dropWhile p :=
  dropWhile_eq_self_of_head p _ (dropWhile_head_false p l)

theorem getLast?_dropWhile_ne_nil (p : Char → Bool) (l : List Char)
    (h : l.dropWhile p ≠ []) : (l.dropWhile p).getLast? = l.getLast? := by
  induction l with
  | nil => exact absurd rfl h
  | cons a rest ih =>
    by_cases hp : p a
    · have hdw : (a :: rest).dropWhile p = rest.dropWhile p := by
        simp [List.dropWhile, hp]
      rw [hdw] at h ⊢
      rw [ih h]
      have hrest : rest ≠ [] := by
        intro hr
        rw [hr] at h
        exact h rfl
      cases rest with
      | nil => exact absurd rfl hrest
      | cons b t => rw [List.getLast?_cons_cons]
    · rw [show (a :: rest).dropWhile p = a :: rest from by simp [List.dropWhile, hp]]

theorem pyStripList_idem (l : List Char) :
    pyStripList (pyStripList l) = pyStripList l := by
  unfold pyStripList
  by_cases hz : (l.dropWhile isPySpace).reverse.dropWhile isPySpace = []
  · rw [hz]
    rfl
  · have h1 : ((l.dropWhile isPySpace).reverse.dropWhile isPySpace).reverse.dropWhile
        isPySpace
        = ((l.dropWhile isPySpace).reverse.dropWhile isPySpace).reverse := by
      apply dropWhile_eq_self_of_head
      intro c hc
      rw [List.head?_reverse] at hc
      rw [getLast?_dropWhile_ne_nil isPySpace _ hz, List.getLast?_reverse] at hc
      exact dropWhile_head_false isPySpace l c hc
    rw [h1, List.reverse_reverse, dropWhile_idem]

theorem pyStrip_idem (s : String) : pyStrip (pyStrip s) = pyStrip s := by
  unfold pyStrip
  rw [show (String.mk (pyStripList s.data)).data = pyStripList s.data from rfl,
    pyStripList_idem]

theorem processSpine_map_index (entries : List SpineEntry) :
    ∀ idx, (processSpine idx entries).map Chapter.index
      = List.range' idx (processSpine idx entries).length := by
  induction entries with
  | nil => intro idx; simp [processSpine]
  | cons e rest ih =>
    intro idx
    cases e with
    | missing =>
      rw [show processSpine idx (SpineEntry.missing :: rest)
            = processSpine idx rest from rfl]
      exact ih idx
    | noBody =>
      rw [show processSpine idx (SpineEntry.noBody :: rest)
            = processSpine idx rest from rfl]
      exact ih idx
    | content extracted titleOpt =>
      simp only [processSpine]
      by_cases h : pyStrip (htmlToText extracted) = ""
      · rw [if_pos h]
        exact ih idx
      · rw [if_neg h]
        rw [List.map_cons, List.length_cons, List.range'_succ]
        rw [ih (idx + 1)]

/-- C3: whenever _extract_chapters succeeds, the chapter list is non-empty
and the index of its k-th chapter is exactly k: the indices are 0..N-1 in
spine order with no gaps or duplicates. -/
theorem extract_chapters_indices :
    ∀ (entries : List SpineEntry) (cs : List Chapter),
      _extract_chapters entries = Except.ok cs →
      cs ≠ [] ∧ cs.map Chapter.index = List.range cs.length := by
  intro entries cs h
  simp only [_extract_chapters] at h
  by_cases hemp : (processSpine 0 entries).isEmpty = true
  · rw [if_pos hemp] at h
    exact absurd h (by simp)
  · rw [if_neg hemp] at h
    have hcs : processSpine 0 entries = cs := by
      simpa using h
    subst hcs
    constructor
    · intro hnil
      rw [hnil] at hemp
      exact hemp rfl
    · rw [List.range_eq_range']
      exact processSpine_map_index entries 0

theorem clean_eval_ciao : _clean_for_tts "ciao" = "ciao" := by
  have s1 : normalizeUnicode "ciao".data = "ciao".data := by
    simp [normalizeUnicode, replaceChar]
  have s2 : protectEllipsis "ciao".data = "ciao".data := by
    simp [protectEllipsis]
  have s3 : removeIsolatedDots true "ciao".data = "ciao".data := by
    simp [removeIsolatedDots, isPySpace]
  have s4 : removePunctLines true "ciao".data = "ciao".data := by
    simp [removePunctLines, tryPunctLine, countLeading, isPySpace, isPunctChar,
      findDollar, dollarAt, nlLast]
  have s5 : spaceAfterPunct "ciao".data = "ciao".data := by
    simp [spaceAfterPunct, isSentencePunct, isLetterCls]
  have s6 : collapseDashDot "ciao".data = "ciao".data := by
    simp [collapseDashDot, tryDashDot, countLeading, isPySpace, isDash]
  have s7 : collapseDashComma "ciao".data = "ciao".data := by
    simp [collapseDashComma, tryDashComma, countLeading, isPySpace, isDash]
  have s8 : collapseDotDash "ciao".data = "ciao".data := by
    simp [collapseDotDash, tryDotDash, countLeading, isPySpace, isDash]
  have s9 : removeDotLines true "ciao".data = "ciao".data := by
    simp [removeDotLines, tryDotLine, countLeading, isPySpace, nlLast]
  have s10 : restoreEllipsis "ciao".data = "ciao".data := by
    simp [restoreEllipsis, ellipsisPlaceholder, List.isPrefixOf]
  have s11 : collapseSpaces "ciao".data = "ciao".data := by
    simp [collapseSpaces]
  have s12 : collapseNewlines "ciao".data = "ciao".data := by
    simp [collapseNewlines]
  show String.mk (cleanForTtsList "ciao".data) = "ciao"
  rw [cleanForTtsList, s1, s2, s3, s4, s5, s6, s7, s8, s9, s10, s11, s12,
    string_mk_data]

theorem htmlToText_ciao : htmlToText "ciao" = "ciao" := by
  show pyStrip ( _clean_for_tts "ciao") = "ciao"
  rw [clean_eval_ciao]
  rfl

theorem extract_ciao :
    _extract_chapters [SpineEntry.content "ciao" (some "Titolo")]
      = Except.ok [{ index := 0, title := "Titolo", text := "ciao" }] := by
  have hps : processSpine 0 [SpineEntry.content "ciao" (some "Titolo")]
      = [{ index := 0, title := "Titolo", text := "ciao" }] := by
    simp only [processSpine, htmlToText_ciao]
    rw [if_neg (by decide : ¬((pyStrip "ciao") = ""))]
    rfl
  simp only [_extract_chapters, hps]
  rfl

/-- Witness for C3 at a one-entry spine. -/
theorem extract_chapters_indices_witness :
    ([{ index := 0, title := "Titolo", text := "ciao" }] : List Chapter) ≠ [] ∧
    ([{ index := 0, title := "Titolo", text := "ciao" }] : List Chapter).map
        Chapter.index
      = List.range
          ([{ index := 0, title := "Titolo", text := "ciao" }] : List Chapter).length :=
  extract_chapters_indices [SpineEntry.content "ciao" (some "Titolo")] _ extract_ciao

theorem processSpine_text (entries : List SpineEntry) :
    ∀ idx ch, ch ∈ processSpine idx entries →
      ch.text ≠ "" ∧ pyStrip ch.text = ch.text := by
  induction entries with
  | nil => intro idx ch h; simp [processSpine] at h
  | cons e rest ih =>
    intro idx ch h
    cases e with
    | missing =>
      rw [show processSpine idx (SpineEntry.missing :: rest)
            = processSpine idx rest from rfl] at h
      exact ih idx ch h
    | noBody =>
      rw [show processSpine idx (SpineEntry.noBody :: rest)
            = processSpine idx rest from rfl] at h
      exact ih idx ch h
    | content extracted titleOpt =>
      simp only [processSpine] at h
      by_cases hemp : pyStrip (htmlToText extracted) = ""
      · rw [if_pos hemp] at h
        exact ih idx ch h
      · rw [if_neg hemp] at h
        rcases List.mem_cons.mp h with hc | hc
        · subst hc
          constructor
          · intro h0
            apply hemp
            have hx : htmlToText extracted = "" := h0
            rw [hx]
            rfl
          · show pyStrip (htmlToText extracted) = htmlToText extracted
            show pyStrip (pyStrip ( _clean_for_tts extracted))
                  = pyStrip ( _clean_for_tts extracted)
            exact pyStrip_idem _
        · exact ih (idx + 1) ch hc

/-- C4: whenever _extract_chapters succeeds, every returned chapter carries
non-empty text with no leading or trailing whitespace: blank spine entries
are dropped, never represented as a Chapter. -/
theorem extract_chapters_text :
    ∀ (entries : List SpineEntry) (cs : List Chapter),
      _extract_chapters entries = Except.ok cs →
      ∀ ch ∈ cs, ch.text ≠ "" ∧ pyStrip ch.text = ch.text := by
  intro entries cs h
  simp only [_extract_chapters] at h
  by_cases hemp : (processSpine 0 entries).isEmpty = true
  · rw [if_pos hemp] at h
    exact absurd h (by simp)
  · rw [if_neg hemp] at h
    have hcs : processSpine 0 entries = cs := by
      simpa using h
    subst hcs
    intro ch hch
    exact processSpine_text entries 0 ch hch

/-- Witness for C4 at a one-entry spine. -/
theorem extract_chapters_text_witness :
    ({ index := 0, title := "Titolo", text := "ciao" } : Chapter).text ≠ "" ∧
    pyStrip ({ index := 0, title := "Titolo", text := "ciao" } : Chapter).text
      = ({ index := 0, title := "Titolo", text := "ciao" } : Chapter).text :=
  extract_chapters_text [SpineEntry.content "ciao" (some "Titolo")] _ extract_ciao
    { index := 0, title := "Titolo", text := "ciao" } (by simp)

/-! ### C1: the conversion loop reuses cached audio and always probes -/

theorem count_synth_chapterEvents_self (fs : FileSys) (ext : String) (total : Nat)
    (ch : Chapter) :
    (chapterEvents fs ext total ch).count (ConvEvent.synth ch.index)
      = if isCached fs (audioFileName ch.index ext) then 0 else 1 := by
  by_cases h : isCached fs (audioFileName ch.index ext)
  · simp [chapterEvents, h]
  · simp [chapterEvents, h]

theorem count_probe_chapterEvents_self (fs : FileSys) (ext : String) (total : Nat)
    (ch : Chapter) :
    (chapterEvents fs ext total ch).count (ConvEvent.probe ch.index) = 1 := by
  by_cases h : isCached fs (audioFileName ch.index ext)
  · simp [chapterEvents, h]
  · simp [chapterEvents, h]

theorem count_append_chapterEvents_self (fs : FileSys) (ext : String) (total : Nat)
    (ch : Chapter) :
    (chapterEvents fs ext total ch).count (ConvEvent.append ch.index) = 1 := by
  by_cases h : isCached fs (audioFileName ch.index ext)
  · simp [chapterEvents, h]
  · simp [chapterEvents, h]

theorem chapterEvents_count_ne (fs : FileSys) (ext : String) (total : Nat)
    (ch : Chapter) (i : Nat) (h : ch.index ≠ i) :
    (chapterEvents fs ext total ch).count (ConvEvent.synth i) = 0 ∧
    (chapterEvents fs ext total ch).count (ConvEvent.probe i) = 0 ∧
    (chapterEvents fs ext total ch).count (ConvEvent.append i) = 0 := by
  by_cases hc : isCached fs (audioFileName ch.index ext)
  · refine ⟨?_, ?_, ?_⟩ <;>
      simp [chapterEvents, hc, h, List.count_cons, List.count_nil]
  · refine ⟨?_, ?_, ?_⟩ <;>
      simp [chapterEvents, hc, h, List.count_cons, List.count_nil]

theorem convertTrace_count_notMem (fs : FileSys) (ext : String) (total : Nat)
    (chapters : List Chapter) (i : Nat) (h : i ∉ chapters.map Chapter.index) :
    (convertTrace fs ext total chapters).count (ConvEvent.synth i) = 0 ∧
    (convertTrace fs ext total chapters).count (ConvEvent.probe i) = 0 ∧
    (convertTrace fs ext total chapters).count (ConvEvent.append i) = 0 := by
  induction chapters with
  | nil => exact ⟨rfl, rfl, rfl⟩
  | cons c rest ih =>
    have hcne : c.index ≠ i := by
      intro he
      exact h (by rw [← he]; exact List.mem_map_of_mem _ (List.mem_cons_self c rest))
    have hrest : i ∉ rest.map Chapter.index := by
      intro hm
      exact h (by simp [hm])
    have h1 := chapterEvents_count_ne fs ext total c i hcne
    have h2 := ih hrest
    rw [show convertTrace fs ext total (c :: rest)
          = chapterEvents fs ext total c ++ convertTrace fs ext total rest from rfl]
    refine ⟨?_, ?_, ?_⟩ <;> rw [List.count_append]
    · rw [h1.1, h2.1]
    · rw [h1.2.1, h2.2.1]
    · rw [h1.2.2, h2.2.2]

theorem probe_append_sub_chapterEvents (fs : FileSys) (ext : String) (total : Nat)
    (c : Chapter) :
    List.Sublist [ConvEvent.probe c.index, ConvEvent.append c.index]
      (chapterEvents fs ext total c) := by
  unfold chapterEvents
  by_cases h : isCached fs (audioFileName c.index ext)
  · rw [if_pos h, List.nil_append]
    exact List.Sublist.cons₂ _ (List.Sublist.cons₂ _ (List.nil_sublist _))
  · rw [if_neg h]
    exact List.Sublist.cons _
      (List.Sublist.cons₂ _ (List.Sublist.cons₂ _ (List.nil_sublist _)))

/-- C1: over chapters with pairwise distinct indices, every chapter of the
parsed list triggers exactly one engine.synthesize call when its audio file
is not cached (missing or empty) and none at all when it is cached
(non-empty file at chapter_{index:04d}.{ext}); in both cases
probe_duration_ms runs on that chapter's file exactly once, before the
single append of its ChapterAudio record. -/
theorem converter_resume_skip :
    ∀ (fs : FileSys) (ext : String) (total : Nat) (chapters : List Chapter),
      (chapters.map Chapter.index).Nodup →
      ∀ ch ∈ chapters,
        ((convertTrace fs ext total chapters).count (ConvEvent.synth ch.index)
            = if isCached fs (audioFileName ch.index ext) then 0 else 1) ∧
        (convertTrace fs ext total chapters).count (ConvEvent.probe ch.index) = 1 ∧
        (convertTrace fs ext total chapters).count (ConvEvent.append ch.index) = 1 ∧
        List.Sublist [ConvEvent.probe ch.index, ConvEvent.append ch.index]
          (convertTrace fs ext total chapters) := by
  intro fs ext total chapters
  induction chapters with
  | nil =>
    intro _ ch hch
    simp at hch
  | cons c rest ih =>
    intro hnd ch hch
    have hnd0 : (c.index :: rest.map Chapter.index).Nodup := by simpa using hnd
    have hnotin : c.index ∉ rest.map Chapter.index := (List.nodup_cons.mp hnd0).1
    have hnd' : (rest.map Chapter.index).Nodup := (List.nodup_cons.mp hnd0).2
    rw [show convertTrace fs ext total (c :: rest)
          = chapterEvents fs ext total c ++ convertTrace fs ext total rest from rfl]
    rcases List.mem_cons.mp hch with hceq | hmem
    · subst hceq
      have hz := convertTrace_count_notMem fs ext total rest ch.index hnotin
      refine ⟨?_, ?_, ?_, ?_⟩
      · rw [List.count_append, hz.1, count_synth_chapterEvents_self, Nat.add_zero]
      · rw [List.count_append, hz.2.1, count_probe_chapterEvents_self]
      · rw [List.count_append, hz.2.2, count_append_chapterEvents_self]
      · exact (probe_append_sub_chapterEvents fs ext total ch).trans
          (List.sublist_append_left _ _)
    · have hchix : ch.index ∈ rest.map Chapter.index := List.mem_map_of_mem _ hmem
      have hne : c.index ≠ ch.index := fun he => hnotin (he ▸ hchix)
      have hz := chapterEvents_count_ne fs ext total c ch.index hne
      obtain ⟨ih1, ih2, ih3, ih4⟩ := ih hnd' ch hmem
      refine ⟨?_, ?_, ?_, ?_⟩
      · rw [List.count_append, hz.1, ih1, Nat.zero_add]
      · rw [List.count_append, hz.2.1, ih2]
      · rw [List.count_append, hz.2.2, ih3]
      · exact ih4.trans (List.sublist_append_right _ _)

/-- Witness for C1: a single uncached chapter is synthesized exactly once. -/
theorem converter_resume_skip_witness :
    (([({ index := 0, title := "Cap 1", text := "Testo" } : Chapter)].map
        Chapter.index).Nodup) ∧
    (convertTrace (fun _ => none) "mp3" 1
        [{ index := 0, title := "Cap 1", text := "Testo" }]).count
        (ConvEvent.synth 0) = 1 := by
  constructor
  · simp
  · have h := converter_resume_skip (fun _ => none) "mp3" 1
      [{ index := 0, title := "Cap 1", text := "Testo" }] (by simp)
      { index := 0, title := "Cap 1", text := "Testo" } (by simp)
    simpa [isCached] using h.1

/-! ### C9: job status moves only forward -/

/-- Invariant of the transition system: while a conversion thread runs, the
status is converting. -/
def JobInv (s : JobState) : Prop := s.running = true → s.status = JobStatus.converting

theorem jobInv_init : JobInv jobInit := by
  intro h
  exact absurd h (by decide)

theorem jobInv_step (s s' : JobState) (hs : JobStep s s') (hinv : JobInv s) :
    JobInv s' := by
  cases hs with
  | startOk h => intro _; rfl
  | startRejected h => exact hinv
  | finishOk h => intro hr; exact absurd hr (by decide)
  | finishErr h => intro hr; exact absurd hr (by decide)
  | other => exact hinv

theorem jobReachable_inv (s : JobState) (h : JobReachable s) : JobInv s := by
  unfold JobReachable at h
  induction h with
  | refl => exact jobInv_init
  | tail hab hbc ih => exact jobInv_step _ _ hbc ih

/-- C9: from the post-create state, every operation of the web job layer
moves the status only forward along uploaded, converting, done-or-error, and
once the status is terminal (done or error) no step changes the state at
all. -/
theorem job_status_forward :
    ∀ s s' : JobState, JobReachable s → JobStep s s' →
      statusRank s.status ≤ statusRank s'.status ∧
      (isTerminalStatus s.status = true → s' = s) := by
  intro s s' hreach hstep
  have hinv := jobReachable_inv s hreach
  cases hstep with
  | startOk h =>
    constructor
    · rw [h]
      decide
    · intro hterm
      rw [h] at hterm
      exact absurd hterm (by decide)
  | startRejected h => exact ⟨Nat.le_refl _, fun _ => rfl⟩
  | finishOk h =>
    have hst := hinv h
    constructor
    · rw [hst]
      decide
    · intro hterm
      rw [hst] at hterm
      exact absurd hterm (by decide)
  | finishErr h =>
    have hst := hinv h
    constructor
    · rw [hst]
      decide
    · intro hterm
      rw [hst] at hterm
      exact absurd hterm (by decide)
  | other => exact ⟨Nat.le_refl _, fun _ => rfl⟩

/-- Witness for C9: the upload-to-converting step from the initial state. -/
theorem job_status_forward_witness :
    statusRank jobInit.status
        ≤ statusRank ({ status := JobStatus.converting, running := true } : JobState).status ∧
    (isTerminalStatus jobInit.status = true →
        ({ status := JobStatus.converting, running := true } : JobState) = jobInit) :=
  job_status_forward jobInit _ Relation.ReflTransGen.refl (JobStep.startOk jobInit rfl)

/-! ### C10: JobManager on unknown ids, and snapshot semantics of get -/

/-- C10: for an id the store does not know, get returns none and every
mutator returns the manager unchanged; for a known id, get returns a
reference to a freshly allocated copy of the stored record, and overwriting
that copy (mutating the returned dict) leaves the stored record untouched. -/
theorem jobmanager_missing_and_snapshot :
    ∀ (m : JobManager), WFJobManager m →
      (∀ id, m.jobs id = none →
        (m.get id).1 = none ∧ (m.get id).2 = m ∧
        (∀ st, m.update_status id st = m) ∧
        (∀ cur tot ttl, m.update_progress id cur tot ttl = m) ∧
        (∀ pth, m.set_output id pth = m) ∧
        (∀ err, m.set_error id err = m)) ∧
      (∀ id r, m.jobs id = some r →
        (m.get id).1 = some m.heap.length ∧
        ((m.get id).2).readJob m.heap.length = m.readJob r ∧
        (∀ j', (((m.get id).2).writeJob m.heap.length j').readJob r
                  = m.readJob r)) := by
  intro m hwf
  constructor
  · intro id hnone
    refine ⟨?_, ?_, ?_, ?_, ?_, ?_⟩
    · simp [JobManager.get, hnone]
    · simp [JobManager.get, hnone]
    · intro st; simp [JobManager.update_status, hnone]
    · intro cur tot ttl; simp [JobManager.update_progress, hnone]
    · intro pth; simp [JobManager.set_output, hnone]
    · intro err; simp [JobManager.set_error, hnone]
  · intro id r hsome
    have hr : r < m.heap.length := hwf id r hsome
    have hj : ∃ j, m.heap[r]? = some j := by
      cases hjq : m.heap[r]? with
      | none =>
        rw [List.getElem?_eq_none_iff] at hjq
        omega
      | some j => exact ⟨j, rfl⟩
    obtain ⟨j, hj⟩ := hj
    have hget : m.get id = (some m.heap.length, { m with heap := m.heap ++ [j] }) := by
      simp [JobManager.get, hsome, hj]
    refine ⟨?_, ?_, ?_⟩
    · rw [hget]
    · rw [hget]
      show (m.heap ++ [j])[m.heap.length]? = m.heap[r]?
      rw [List.getElem?_append_right (Nat.le_refl _)]
      simp [hj]
    · intro j'
      rw [hget]
      show ((m.heap ++ [j]).set m.heap.length j')[r]? = m.heap[r]?
      rw [List.getElem?_set_ne (by omega)]
      exact List.getElem?_append_left hr

/-- Witness for C10: a store with one job, queried for a missing id and for
the stored id. -/
theorem jobmanager_missing_and_snapshot_witness :
    (JobManager.update_status
        { jobs := fun k => if k = "j1" then some 0 else none,
          heap := [{ job_id := "j1", status := "uploaded", epub_path := "b.epub",
                     output_path := none, title := "t", author := "a",
                     language := "it", total_chapters := 1, current_chapter := 0,
                     chapter_title := "", error := none, cover_image := none }] }
        "missing" "done")
      = { jobs := fun k => if k = "j1" then some 0 else none,
          heap := [{ job_id := "j1", status := "uploaded", epub_path := "b.epub",
                     output_path := none, title := "t", author := "a",
                     language := "it", total_chapters := 1, current_chapter := 0,
                     chapter_title := "", error := none, cover_image := none }] } :=
  ((jobmanager_missing_and_snapshot _
      (fun id r h => by
        by_cases hk : id = "j1"
        · subst hk
          simp at h
          simp [← h]
        · simp [hk] at h)).1
    "missing" (by simp)).2.2.1 "done"

end E2A
